import Mathlib

/-!
Verification of the healthchain-access-control consent core.

The repository ships only Python glue scripts (deploy.py, testConsent.py,
simulation.py, simulation_avg.py); the Solidity contract ConsentManager.sol
that implements the consent ledger is not part of the available sources.
The ledger, audit log and incentive hook below are therefore modelled from
the specification (spec.md §3, §4, §6, §7); the bulk-results averaging step
is embedded directly from scripts/simulation_avg.py.
-/

namespace HealthChain

/-- Modelled from the spec: §6 IdentityDirectory, `roleOf(actorId) → Role | Unknown`.
`Unknown` is represented as `none` in the directory function. -/
inductive Role where
  | Patient
  | Doctor
  | Other
deriving DecidableEq, Repr

/-- An identity directory maps actor identifiers to roles; `none` means `Unknown`. -/
def IdentityDirectory := Nat → Option Role

/-- Modelled from the spec: §3, ConsentRecord `status` is one of `Active`, `Revoked`;
`Expired` is derived, never stored. -/
inductive Status where
  | Active
  | Revoked
deriving DecidableEq, Repr

/-- Modelled from the spec: §3 ConsentRecord data model (ConsentManager.sol is
not in the available sources). -/
structure ConsentRecord where
  id : Nat
  grantor : Nat
  grantee : Nat
  dataAssetId : Nat
  purpose : String
  expiresAt : Nat
  status : Status
  createdAt : Nat
  revokedAt : Option Nat
deriving DecidableEq, Repr

/-- Modelled from the spec: §3 AccessLogEntry data model. -/
structure AccessLogEntry where
  consentId : Nat
  accessor : Nat
  timestamp : Nat
deriving DecidableEq, Repr

/-- Modelled from the spec: §3 ownership — the ledger owns the records (keyed by
id, ids assigned monotonically hence collision-free) and the append-only
access log. -/
structure Ledger where
  records : List ConsentRecord
  nextId : Nat
  accessLog : List AccessLogEntry
deriving DecidableEq, Repr

/-- The empty ledger. -/
def Ledger.init : Ledger := ⟨[], 0, []⟩

/-- Modelled from the spec: §7 error kinds of the consent core. -/
inductive LedgerError where
  | InvalidGrantParameters
  | NotFound
  | Unauthorized
  | AlreadyRevoked
  | ConsentNotActive
deriving DecidableEq, Repr

/-- Resolve a consent record by id (records are keyed by id). -/
def findRecord (st : Ledger) (cid : Nat) : Option ConsentRecord :=
  st.records.find? (fun r => r.id == cid)

/-- Modelled from the spec: §4.1/§4.2 shared time-relative validity rule —
`status = Active` and `expiresAt` strictly after current ledger time. -/
def recordValid (now : Nat) (r : ConsentRecord) : Bool :=
  r.status == Status.Active && now < r.expiresAt

/-- Does a record match an `(grantor, grantee, dataAssetId)` tuple? -/
def matchesTuple (g ge d : Nat) (r : ConsentRecord) : Bool :=
  r.grantor == g && r.grantee == ge && r.dataAssetId == d

/-- Modelled from the spec: §4.1 `grant` — preconditions (both actors resolve
via the IdentityDirectory, `grantor ≠ grantee`, `expiresAt` strictly in the
future) fail with `InvalidGrantParameters`; on success a fresh record with
`status = Active` is appended and its id returned. -/
def grant (dir : IdentityDirectory) (st : Ledger) (now : Nat)
    (grantor grantee dataAssetId expiresAt : Nat) (purpose : String) :
    Except LedgerError (Nat × Ledger) :=
  if (dir grantor).isNone || (dir grantee).isNone || grantor == grantee
      || !(now < expiresAt) then
    .error .InvalidGrantParameters
  else
    let newRec : ConsentRecord :=
      { id := st.nextId, grantor := grantor, grantee := grantee,
        dataAssetId := dataAssetId, purpose := purpose, expiresAt := expiresAt,
        status := .Active, createdAt := now, revokedAt := none }
    .ok (st.nextId, { st with records := st.records ++ [newRec], nextId := st.nextId + 1 })

/-- Modelled from the spec: §4.1 `isValid` — scans records matching the tuple,
returns `true` with the id of a matching record that is `Active` and
unexpired; the tie-break picks the most recently created matching record. -/
def isValid (st : Ledger) (now : Nat) (g ge d : Nat) : Bool × Option Nat :=
  match st.records.reverse.find? (fun r => matchesTuple g ge d r && recordValid now r) with
  | some r => (true, some r.id)
  | none => (false, none)

/-- Modelled from the spec: §4.1 `revoke` — `NotFound` for an unknown id,
`Unauthorized` when the caller is not the record's grantor, `AlreadyRevoked`
on a second revoke; on success `status` becomes `Revoked` and `revokedAt`
is set to the current time. -/
def revoke (st : Ledger) (now : Nat) (cid caller : Nat) :
    Except LedgerError Ledger :=
  match findRecord st cid with
  | none => .error .NotFound
  | some r =>
    if caller ≠ r.grantor then .error .Unauthorized
    else if r.status = Status.Revoked then .error .AlreadyRevoked
    else
      .ok { st with records :=
        st.records.map (fun q =>
          if q.id == cid then { q with status := .Revoked, revokedAt := some now } else q) }

/-- Modelled from the spec: §4.2 `logAccess` — resolve the record (`NotFound`
if absent), check validity with the same rule as `isValid` on the record
directly (`ConsentNotActive` if invalid), then append one AccessLogEntry
with `timestamp = now`. -/
def logAccess (st : Ledger) (now : Nat) (cid accessor : Nat) :
    Except LedgerError Ledger :=
  match findRecord st cid with
  | none => .error .NotFound
  | some r =>
    if recordValid now r then
      .ok { st with accessLog := st.accessLog ++ [⟨cid, accessor, now⟩] }
    else
      .error .ConsentNotActive

/-- Modelled from the spec: §6 — events emitted to the IncentiveNotifier sink
carry an event kind, the actor, the consent id and a timestamp. -/
structure IncentiveEvent where
  eventKind : String
  actor : Nat
  consentId : Nat
  timestamp : Nat
deriving DecidableEq, Repr

/-- Internal state of the IncentiveNotifier: events successfully forwarded and
a count of swallowed forwarding failures (the internal failure log). -/
structure NotifierState where
  forwarded : List IncentiveEvent
  failuresLogged : Nat
deriving DecidableEq, Repr

/-- Modelled from the spec: §4.3 IncentiveNotifier — forwards an event to the
external reward-accounting collaborator; a failed forwarding call is logged
and swallowed. `deliveryOk` models whether the external component is
reachable. -/
def notify (deliveryOk : Bool) (e : IncentiveEvent) (ns : NotifierState) :
    NotifierState :=
  if deliveryOk then { ns with forwarded := ns.forwarded ++ [e] }
  else { ns with failuresLogged := ns.failuresLogged + 1 }

/-- Modelled from the spec: §4.1 — `grant` with its `ConsentGranted` side
effect wired through the IncentiveNotifier. -/
def grantNotified (deliveryOk : Bool) (dir : IdentityDirectory) (st : Ledger)
    (ns : NotifierState) (now : Nat) (grantor grantee dataAssetId expiresAt : Nat)
    (purpose : String) :
    Except LedgerError (Nat × Ledger) × NotifierState :=
  match grant dir st now grantor grantee dataAssetId expiresAt purpose with
  | .error e => (.error e, ns)
  | .ok (cid, st') =>
    (.ok (cid, st'), notify deliveryOk ⟨"Granted", grantor, cid, now⟩ ns)

/-- Modelled from the spec: §4.2 — `logAccess` with its `AccessLogged` side
effect wired through the IncentiveNotifier. -/
def logAccessNotified (deliveryOk : Bool) (st : Ledger) (ns : NotifierState)
    (now : Nat) (cid accessor : Nat) :
    Except LedgerError Ledger × NotifierState :=
  match logAccess st now cid accessor with
  | .error e => (.error e, ns)
  | .ok st' => (.ok st', notify deliveryOk ⟨"Accessed", accessor, cid, now⟩ ns)

/-- A single ledger operation, for stating properties over arbitrary futures. -/
inductive Op where
  | grant (dir : IdentityDirectory) (now grantor grantee dataAssetId expiresAt : Nat)
      (purpose : String)
  | revoke (now cid caller : Nat)
  | logAccess (now cid accessor : Nat)

/-- Apply one operation; a failing operation leaves the ledger unchanged
(spec §7: each operation is atomic with respect to the visible state). -/
def applyOp (st : Ledger) : Op → Ledger
  | .grant dir now g ge d e p =>
      match grant dir st now g ge d e p with
      | .ok (_, st') => st'
      | .error _ => st
  | .revoke now cid caller =>
      match revoke st now cid caller with
      | .ok st' => st'
      | .error _ => st
  | .logAccess now cid acc =>
      match logAccess st now cid acc with
      | .ok st' => st'
      | .error _ => st

/-- Apply a sequence of operations in order. -/
def applyOps (st : Ledger) : List Op → Ledger
  | [] => st
  | op :: ops => applyOps (applyOp st op) ops

/-- Models the read-only eth `.call()` used for `isConsentValid` in
scripts/testConsent.py lines 51-55 and 75-79: the ledger state is threaded
through explicitly so that purity is an explicit statement, not a typing
convention. -/
def isValidCall (st : Ledger) (now : Nat) (g ge d : Nat) :
    (Bool × Option Nat) × Ledger :=
  (isValid st now g ge d, st)

/-- Ledger well-formedness: stored ids are pairwise distinct and every stored
id is below `nextId` (so freshly assigned ids never collide). -/
def WF (st : Ledger) : Prop :=
  (st.records.map (fun r => r.id)).Nodup ∧ ∀ r ∈ st.records, r.id < st.nextId

end HealthChain

namespace SimulationAvg

/-- One entry of a bulk-simulation results file as written by
scripts/simulation.py: a success entry carries `gasUsed` and `duration`,
a failure entry carries neither (only an error string). -/
structure ResultEntry where
  gasUsed : Option Nat
  duration : ℚ
  error : Option String
deriving Repr

/-- From scripts/simulation_avg.py line 6:
`successful = [d for d in data if "gasUsed" in d]`. -/
def successful (data : List ResultEntry) : List ResultEntry :=
  data.filter (fun d => d.gasUsed.isSome)

/-- From scripts/simulation_avg.py lines 7-8: sum of `gasUsed` and of
`duration` over the successful entries, each divided by the number of
successful entries. The division carries no guard: with zero successful
entries Python raises `ZeroDivisionError`, modelled here as `none`. -/
def computeAverages (data : List ResultEntry) : Option (ℚ × ℚ) :=
  let s := successful data
  if s.length = 0 then none
  else
    some (((s.map (fun d => (d.gasUsed.getD 0 : ℚ))).sum) / (s.length : ℚ),
          ((s.map (fun d => d.duration)).sum) / (s.length : ℚ))

end SimulationAvg

namespace HealthChain

/-! ### Concrete fixtures for witnesses, mirroring Scenario A of the spec -/

/-- A directory in which every actor resolves to a patient role. -/
def dirAll : IdentityDirectory := fun _ => some Role.Patient

/-- The record created by Scenario A's grant:
grant(patientA = 1, doctorB = 2, data1 = 3, now + 300, "diagnosis") at time 0. -/
def sampleActive : ConsentRecord :=
  { id := 0, grantor := 1, grantee := 2, dataAssetId := 3,
    purpose := "diagnosis", expiresAt := 300, status := Status.Active,
    createdAt := 0, revokedAt := none }

/-- The ledger holding exactly the Scenario A record. -/
def sampleLedger : Ledger := ⟨[sampleActive], 1, []⟩

/-- The Scenario A ledger after the grantor revokes the record at time 5. -/
def sampleRevoked : Ledger :=
  ⟨[{ sampleActive with status := Status.Revoked, revokedAt := some 5 }], 1, []⟩

/-- Ledger after two grants for the same (1, 2, 3) tuple, both expiring at
time 10; the second record is the more recently created one. -/
def twoGrants : Ledger :=
  ⟨[{ id := 0, grantor := 1, grantee := 2, dataAssetId := 3, purpose := "a",
      expiresAt := 10, status := Status.Active, createdAt := 0,
      revokedAt := none },
    { id := 1, grantor := 1, grantee := 2, dataAssetId := 3, purpose := "b",
      expiresAt := 10, status := Status.Active, createdAt := 0,
      revokedAt := none }], 2, []⟩

/-! ### Basic facts about record lookup and validity -/

theorem findRecord_mem {st : Ledger} {cid : Nat} {r : ConsentRecord}
    (h : findRecord st cid = some r) : r ∈ st.records ∧ r.id = cid := by
  refine ⟨List.mem_of_find?_eq_some h, ?_⟩
  simpa using List.find?_some h

theorem WF_unique {st : Ledger} (hwf : WF st) {r1 r2 : ConsentRecord}
    (h1 : r1 ∈ st.records) (h2 : r2 ∈ st.records) (hid : r1.id = r2.id) :
    r1 = r2 :=
  List.inj_on_of_nodup_map hwf.1 h1 h2 hid

theorem isValid_eq_some {st : Ledger} {t g ge d j : Nat}
    (h : (isValid st t g ge d).2 = some j) :
    ∃ rv ∈ st.records, rv.id = j ∧ matchesTuple g ge d rv = true ∧
      recordValid t rv = true := by
  unfold isValid at h
  cases hf : st.records.reverse.find?
      (fun r => matchesTuple g ge d r && recordValid t r) with
  | none => rw [hf] at h; simp at h
  | some rv =>
    rw [hf] at h
    simp only [Option.some.injEq] at h
    have hm := List.mem_of_find?_eq_some hf
    have hp := List.find?_some hf
    rw [List.mem_reverse] at hm
    simp only [Bool.and_eq_true] at hp
    exact ⟨rv, hm, h, hp.1, hp.2⟩

/-! ### Inversion lemmas for the three mutating operations -/

theorem grant_ok_inv {dir : IdentityDirectory} {st : Ledger}
    {now g ge d e : Nat} {p : String} {cid : Nat} {st' : Ledger}
    (h : grant dir st now g ge d e p = .ok (cid, st')) :
    (dir g).isSome ∧ (dir ge).isSome ∧ g ≠ ge ∧ now < e ∧ cid = st.nextId ∧
    st' = { st with
      records := st.records ++
        [{ id := st.nextId, grantor := g, grantee := ge, dataAssetId := d,
           purpose := p, expiresAt := e, status := .Active, createdAt := now,
           revokedAt := none }],
      nextId := st.nextId + 1 } := by
  unfold grant at h
  split at h
  · exact absurd h (by simp)
  · rename_i hc
    simp only [Bool.or_eq_true, not_or] at hc
    obtain ⟨⟨⟨h1, h2⟩, h3⟩, h4⟩ := hc
    simp only [Except.ok.injEq, Prod.mk.injEq] at h
    refine ⟨?_, ?_, ?_, ?_, h.1.symm, h.2.symm⟩
    · cases hd : dir g with
      | none => exact absurd (by simp [hd]) h1
      | some _ => simp
    · cases hd : dir ge with
      | none => exact absurd (by simp [hd]) h2
      | some _ => simp
    · intro hge; exact h3 (by simp [hge])
    · by_contra hlt
      exact h4 (by simp [hlt])

theorem revoke_ok_inv {st : Ledger} {now cid caller : Nat} {st' : Ledger}
    (h : revoke st now cid caller = .ok st') :
    ∃ r, findRecord st cid = some r ∧ caller = r.grantor ∧
      r.status = Status.Active ∧
      st' = { st with records := st.records.map (fun q =>
        if q.id == cid then { q with status := .Revoked, revokedAt := some now }
        else q) } := by
  unfold revoke at h
  cases hf : findRecord st cid with
  | none => rw [hf] at h; exact absurd h (by simp)
  | some r =>
    rw [hf] at h
    dsimp only at h
    by_cases hcall : caller ≠ r.grantor
    · rw [if_pos hcall] at h; exact absurd h (by simp)
    · rw [if_neg hcall] at h
      by_cases hstat : r.status = Status.Revoked
      · rw [if_pos hstat] at h; exact absurd h (by simp)
      · rw [if_neg hstat] at h
        refine ⟨r, rfl, not_not.mp hcall, ?_, (Except.ok.inj h).symm⟩
        cases hs : r.status with
        | Active => rfl
        | Revoked => exact absurd hs hstat

theorem logAccess_ok_inv {st : Ledger} {now cid acc : Nat} {st' : Ledger}
    (h : logAccess st now cid acc = .ok st') :
    ∃ r, findRecord st cid = some r ∧ recordValid now r = true ∧
      st' = { st with accessLog := st.accessLog ++ [⟨cid, acc, now⟩] } := by
  unfold logAccess at h
  cases hf : findRecord st cid with
  | none => rw [hf] at h; exact absurd h (by simp)
  | some r =>
    rw [hf] at h
    dsimp only at h
    by_cases hv : recordValid now r = true
    · rw [if_pos hv] at h
      exact ⟨r, rfl, hv, (Except.ok.inj h).symm⟩
    · rw [if_neg hv] at h
      exact absurd h (by simp)

end HealthChain

namespace HealthChain

/-! ### How each operation transforms record lookup -/

theorem find?_id_map (l : List ConsentRecord) (cid : Nat)
    (f : ConsentRecord → ConsentRecord) (hf : ∀ q, (f q).id = q.id) :
    (l.map f).find? (fun r => r.id == cid) =
      (l.find? (fun r => r.id == cid)).map f := by
  have hp : ((fun r : ConsentRecord => r.id == cid) ∘ f) =
      (fun r : ConsentRecord => r.id == cid) := by
    funext q
    simp [Function.comp, hf]
  rw [List.find?_map, hp]

theorem findRecord_revoke_ok {st st' : Ledger} {now cid caller : Nat}
    (h : revoke st now cid caller = .ok st') (cid' : Nat) :
    findRecord st' cid' = (findRecord st cid').map
      (fun q => if q.id == cid then
        { q with status := Status.Revoked, revokedAt := some now } else q) := by
  obtain ⟨r, _, _, _, hst⟩ := revoke_ok_inv h
  subst hst
  exact find?_id_map _ _ _ (fun q => by split <;> rfl)

theorem findRecord_grant_ok {dir : IdentityDirectory} {st : Ledger}
    {now g ge d e : Nat} {p : String} {cid' : Nat} {st' : Ledger}
    (h : grant dir st now g ge d e p = .ok (cid', st'))
    {cid : Nat} {r : ConsentRecord} (hfind : findRecord st cid = some r) :
    findRecord st' cid = some r := by
  obtain ⟨_, _, _, _, _, hst⟩ := grant_ok_inv h
  subst hst
  unfold findRecord at hfind ⊢
  rw [List.find?_append, hfind]
  rfl

theorem findRecord_logAccess_ok {st : Ledger} {now cid0 acc : Nat} {st' : Ledger}
    (h : logAccess st now cid0 acc = .ok st') (cid : Nat) :
    findRecord st' cid = findRecord st cid := by
  obtain ⟨r, _, _, hst⟩ := logAccess_ok_inv h
  subst hst
  rfl

theorem findRecord_applyOp_ne_revoke {st : Ledger} {cid : Nat} {r : ConsentRecord}
    (hfind : findRecord st cid = some r) (op : Op)
    (hop : ∀ t c, op ≠ Op.revoke t cid c) :
    findRecord (applyOp st op) cid = some r := by
  cases op with
  | grant dir t g ge d e p =>
    cases hg : grant dir st t g ge d e p with
    | error _ => simpa only [applyOp, hg] using hfind
    | ok v =>
      obtain ⟨cidv, stv⟩ := v
      simp only [applyOp, hg]
      exact findRecord_grant_ok hg hfind
  | revoke t cid' c =>
    have hne : cid' ≠ cid := by
      intro hh
      exact hop t c (by rw [hh])
    cases hr : revoke st t cid' c with
    | error _ => simpa only [applyOp, hr] using hfind
    | ok st' =>
      simp only [applyOp, hr]
      rw [findRecord_revoke_ok hr cid, hfind]
      have hid : r.id = cid := (findRecord_mem hfind).2
      simp [hid, Ne.symm hne]
  | logAccess t c0 a =>
    cases hl : logAccess st t c0 a with
    | error _ => simpa only [applyOp, hl] using hfind
    | ok st' =>
      simp only [applyOp, hl]
      rw [findRecord_logAccess_ok hl]
      exact hfind

theorem revoke_revoked_noop {st : Ledger} {cid : Nat} {r : ConsentRecord}
    (hfind : findRecord st cid = some r) (hst : r.status = Status.Revoked)
    (t c : Nat) : applyOp st (Op.revoke t cid c) = st := by
  cases hr : revoke st t cid c with
  | error _ => simp only [applyOp, hr]
  | ok st' =>
    obtain ⟨r', hf', _, hact, _⟩ := revoke_ok_inv hr
    rw [hfind] at hf'
    have : r = r' := Option.some.inj hf'
    subst this
    rw [hst] at hact
    exact Status.noConfusion hact

theorem revoked_preserved_applyOp {st : Ledger} {cid : Nat} {r : ConsentRecord}
    (hfind : findRecord st cid = some r) (hst : r.status = Status.Revoked)
    (op : Op) : findRecord (applyOp st op) cid = some r := by
  by_cases hop : ∀ t c, op ≠ Op.revoke t cid c
  · exact findRecord_applyOp_ne_revoke hfind op hop
  · push_neg at hop
    obtain ⟨t, c, rfl⟩ := hop
    rw [revoke_revoked_noop hfind hst t c]
    exact hfind

theorem revoked_preserved_applyOps {st : Ledger} {cid : Nat} {r : ConsentRecord}
    (hfind : findRecord st cid = some r) (hst : r.status = Status.Revoked)
    (ops : List Op) : findRecord (applyOps st ops) cid = some r := by
  induction ops generalizing st with
  | nil => exact hfind
  | cons op ops ih => exact ih (revoked_preserved_applyOp hfind hst op)

/-! ### Well-formedness is preserved by every operation -/

theorem WF_grant_ok {dir : IdentityDirectory} {st : Ledger}
    {now g ge d e : Nat} {p : String} {cid : Nat} {st' : Ledger}
    (hwf : WF st) (h : grant dir st now g ge d e p = .ok (cid, st')) :
    WF st' := by
  obtain ⟨_, _, _, _, _, hst⟩ := grant_ok_inv h
  subst hst
  constructor
  · rw [List.map_append]
    refine List.Nodup.append hwf.1 (by simp) ?_
    intro a ha hb
    obtain ⟨q, hq, rfl⟩ := List.mem_map.mp ha
    simp only [List.map_cons, List.map_nil, List.mem_singleton] at hb
    exact absurd hb (Nat.ne_of_lt (hwf.2 q hq))
  · intro r hr
    rw [List.mem_append] at hr
    cases hr with
    | inl hr => exact Nat.lt_succ_of_lt (hwf.2 r hr)
    | inr hr =>
      simp only [List.mem_singleton] at hr
      subst hr
      exact Nat.lt_succ_self _

theorem WF_revoke_ok {st : Ledger} {now cid caller : Nat} {st' : Ledger}
    (hwf : WF st) (h : revoke st now cid caller = .ok st') : WF st' := by
  obtain ⟨r, _, _, _, hst⟩ := revoke_ok_inv h
  subst hst
  have hid : ∀ q : ConsentRecord,
      ((fun q => if q.id == cid then
        { q with status := Status.Revoked, revokedAt := some now } else q) q).id
        = q.id := fun q => by dsimp only; split <;> rfl
  constructor
  · have : (st.records.map (fun q => if q.id == cid then
        { q with status := Status.Revoked, revokedAt := some now } else q)).map
          (fun r => r.id) = st.records.map (fun r => r.id) := by
      rw [List.map_map]
      exact List.map_congr_left (fun q _ => hid q)
    rw [this]
    exact hwf.1
  · intro r' hr'
    obtain ⟨q, hq, rfl⟩ := List.mem_map.mp hr'
    rw [hid q]
    exact hwf.2 q hq

theorem WF_logAccess_ok {st : Ledger} {now cid acc : Nat} {st' : Ledger}
    (hwf : WF st) (h : logAccess st now cid acc = .ok st') : WF st' := by
  obtain ⟨r, _, _, hst⟩ := logAccess_ok_inv h
  subst hst
  exact hwf

theorem WF_applyOp {st : Ledger} (hwf : WF st) (op : Op) : WF (applyOp st op) := by
  cases op with
  | grant dir t g ge d e p =>
    cases hg : grant dir st t g ge d e p with
    | error _ => simpa only [applyOp, hg] using hwf
    | ok v =>
      obtain ⟨cidv, stv⟩ := v
      simp only [applyOp, hg]
      exact WF_grant_ok hwf hg
  | revoke t cid c =>
    cases hr : revoke st t cid c with
    | error _ => simpa only [applyOp, hr] using hwf
    | ok st' =>
      simp only [applyOp, hr]
      exact WF_revoke_ok hwf hr
  | logAccess t c0 a =>
    cases hl : logAccess st t c0 a with
    | error _ => simpa only [applyOp, hl] using hwf
    | ok st' =>
      simp only [applyOp, hl]
      exact WF_logAccess_ok hwf hl

theorem WF_applyOps {st : Ledger} (hwf : WF st) (ops : List Op) :
    WF (applyOps st ops) := by
  induction ops generalizing st with
  | nil => exact hwf
  | cons op ops ih => exact ih (WF_applyOp hwf op)

end HealthChain

namespace HealthChain

/-! ### Claim theorems -/

/-- C5: `grant` fails with `InvalidGrantParameters`, creating no record,
whenever the grantor or grantee does not resolve via the IdentityDirectory,
the grantor equals the grantee, or `expiresAt` is not strictly in the future
(in particular `expiresAt = now - 1`). -/
theorem grant_invalid_parameters (dir : IdentityDirectory) (st : Ledger)
    (now g ge d e : Nat) (p : String)
    (h : dir g = none ∨ dir ge = none ∨ g = ge ∨ e ≤ now) :
    grant dir st now g ge d e p = .error .InvalidGrantParameters ∧
    applyOp st (Op.grant dir now g ge d e p) = st := by
  have herr : grant dir st now g ge d e p = .error .InvalidGrantParameters := by
    unfold grant
    rw [if_pos]
    rcases h with h | h | h | h
    · simp [h]
    · simp [h]
    · simp [h]
    · simp [Nat.not_lt.mpr h]
  exact ⟨herr, by simp only [applyOp, herr]⟩

/-- Witness for C5: granting with `expiresAt = now - 1` (here `now = 5`,
`expiresAt = 4`) fails with `InvalidGrantParameters`. -/
theorem grant_invalid_parameters_witness :
    grant (fun _ => some Role.Patient) Ledger.init 5 1 2 3 4 "p" =
      .error .InvalidGrantParameters :=
  (grant_invalid_parameters (fun _ => some Role.Patient) Ledger.init 5 1 2 3 4
    "p" (Or.inr (Or.inr (Or.inr (by decide))))).1

/-- C6: `revoke` by a caller distinct from the record's grantor fails with
`Unauthorized` and changes nothing; `revoke` on a nonexistent id fails with
`NotFound` and changes nothing. -/
theorem revoke_wrong_caller (st : Ledger) (now cid caller : Nat) :
    (∀ r, findRecord st cid = some r → caller ≠ r.grantor →
      revoke st now cid caller = .error .Unauthorized ∧
      applyOp st (Op.revoke now cid caller) = st) ∧
    (findRecord st cid = none →
      revoke st now cid caller = .error .NotFound ∧
      applyOp st (Op.revoke now cid caller) = st) := by
  constructor
  · intro r hf hne
    have herr : revoke st now cid caller = .error .Unauthorized := by
      unfold revoke
      rw [hf]
      dsimp only
      rw [if_pos hne]
    exact ⟨herr, by simp only [applyOp, herr]⟩
  · intro hf
    have herr : revoke st now cid caller = .error .NotFound := by
      unfold revoke
      rw [hf]
    exact ⟨herr, by simp only [applyOp, herr]⟩

/-- Witness for C6: on a ledger holding one active record granted by actor 1,
a revoke by actor 2 fails with `Unauthorized`. -/
theorem revoke_wrong_caller_witness :
    revoke sampleLedger 10 0 2 = .error .Unauthorized :=
  ((revoke_wrong_caller sampleLedger 10 0 2).1 sampleActive rfl (by decide)).1

/-- C7: `isValid` mutates no state, and two isValid calls on the same tuple
with no intervening mutation and the same current time return identical
results. -/
theorem isValid_pure_and_idempotent (st : Ledger) (now g ge d : Nat) :
    (isValidCall st now g ge d).2 = st ∧
    (isValidCall ((isValidCall st now g ge d).2) now g ge d).1 =
      (isValidCall st now g ge d).1 :=
  ⟨rfl, rfl⟩

/-- C9: the outcome of `grant` and `logAccess` and the resulting ledger state
are identical whether the incentive-forwarding call succeeds or fails; a
failed forwarding is counted in the notifier's internal log and forwards
nothing. -/
theorem notifier_failure_never_changes_outcome (dir : IdentityDirectory)
    (st : Ledger) (ns : NotifierState) (now g ge d e : Nat) (p : String)
    (cid acc : Nat) (ok1 ok2 : Bool) :
    (grantNotified ok1 dir st ns now g ge d e p).1 =
      (grantNotified ok2 dir st ns now g ge d e p).1 ∧
    (logAccessNotified ok1 st ns now cid acc).1 =
      (logAccessNotified ok2 st ns now cid acc).1 ∧
    (∀ ev, (notify false ev ns).failuresLogged = ns.failuresLogged + 1 ∧
      (notify false ev ns).forwarded = ns.forwarded) := by
  refine ⟨?_, ?_, ?_⟩
  · cases hg : grant dir st now g ge d e p with
    | error err => simp only [grantNotified, hg]
    | ok v =>
      obtain ⟨a, b⟩ := v
      simp only [grantNotified, hg]
  · cases hl : logAccess st now cid acc with
    | error err => simp only [logAccessNotified, hl]
    | ok st' => simp only [logAccessNotified, hl]
  · intro ev
    exact ⟨rfl, rfl⟩

end HealthChain

namespace SimulationAvg

/-- C10: the averaging step of scripts/simulation_avg.py divides by the
number of successful entries with no guard: with at least one entry carrying
`gasUsed` the result is the exact arithmetic mean over those entries, and
with none the division is by zero and the computation fails (Python raises
`ZeroDivisionError`) rather than producing a value. -/
theorem computeAverages_division_guard (data : List ResultEntry) :
    ((∃ d ∈ data, d.gasUsed.isSome = true) →
      ∃ ag aT, computeAverages data = some (ag, aT) ∧
        ag * ((successful data).length : ℚ) =
          ((successful data).map (fun d => (d.gasUsed.getD 0 : ℚ))).sum ∧
        aT * ((successful data).length : ℚ) =
          ((successful data).map (fun d => d.duration)).sum) ∧
    ((∀ d ∈ data, d.gasUsed = none) → computeAverages data = none) := by
  constructor
  · rintro ⟨d0, hd0, hsome⟩
    have hmem : d0 ∈ successful data := List.mem_filter.mpr ⟨hd0, hsome⟩
    have hlen : (successful data).length ≠ 0 := by
      intro h0
      rw [List.length_eq_zero] at h0
      rw [h0] at hmem
      exact absurd hmem (List.not_mem_nil d0)
    have hcast : ((successful data).length : ℚ) ≠ 0 := by
      exact_mod_cast hlen
    refine ⟨_, _, ?_, div_mul_cancel₀ _ hcast, div_mul_cancel₀ _ hcast⟩
    unfold computeAverages
    rw [if_neg hlen]
  · intro hall
    have hnil : successful data = [] := by
      rw [successful, List.filter_eq_nil_iff]
      intro d hd
      rw [hall d hd]
      simp
    unfold computeAverages
    rw [hnil]
    rfl

/-- Witness for C10: a results file with no `gasUsed` entry makes the
averaging computation fail (division by zero), producing no value. -/
theorem computeAverages_division_guard_witness :
    computeAverages [⟨none, 0, some "err"⟩] = none :=
  (computeAverages_division_guard [⟨none, 0, some "err"⟩]).2
    (by intro d hd; simp at hd; rw [hd])

end SimulationAvg

namespace HealthChain

/-- C3: `logAccess` succeeds iff the referenced record is valid under the same
rule `isValid` uses (`recordValid`: status `Active` and `expiresAt` strictly
after now); on success it appends exactly one entry with `timestamp = now`
and touches no record; an unknown id fails with `NotFound` and an existing
but invalid record fails with `ConsentNotActive`, appending nothing. -/
theorem logAccess_iff_valid (st : Ledger) (now cid acc : Nat) :
    ((∃ st', logAccess st now cid acc = .ok st') ↔
      (∃ r, findRecord st cid = some r ∧ recordValid now r = true)) ∧
    (∀ st', logAccess st now cid acc = .ok st' →
      st'.accessLog = st.accessLog ++ [⟨cid, acc, now⟩] ∧
      st'.records = st.records) ∧
    (findRecord st cid = none →
      logAccess st now cid acc = .error .NotFound ∧
      applyOp st (Op.logAccess now cid acc) = st) ∧
    (∀ r, findRecord st cid = some r → recordValid now r = false →
      logAccess st now cid acc = .error .ConsentNotActive ∧
      applyOp st (Op.logAccess now cid acc) = st) := by
  refine ⟨⟨?_, ?_⟩, ?_, ?_, ?_⟩
  · rintro ⟨st', h⟩
    obtain ⟨r, hf, hv, _⟩ := logAccess_ok_inv h
    exact ⟨r, hf, hv⟩
  · rintro ⟨r, hf, hv⟩
    have h : logAccess st now cid acc =
        .ok { st with accessLog := st.accessLog ++ [⟨cid, acc, now⟩] } := by
      unfold logAccess
      rw [hf]
      dsimp only
      rw [if_pos hv]
    exact ⟨_, h⟩
  · intro st' h
    obtain ⟨r, hf, hv, hst⟩ := logAccess_ok_inv h
    subst hst
    exact ⟨rfl, rfl⟩
  · intro hf
    have herr : logAccess st now cid acc = .error .NotFound := by
      unfold logAccess
      rw [hf]
    exact ⟨herr, by simp only [applyOp, herr]⟩
  · intro r hf hv
    have herr : logAccess st now cid acc = .error .ConsentNotActive := by
      unfold logAccess
      rw [hf]
      dsimp only
      rw [if_neg (by simp [hv])]
    exact ⟨herr, by simp only [applyOp, herr]⟩

/-- Witness for C3: on the revoked Scenario A ledger, logging access against
the revoked record's id fails with `ConsentNotActive`. -/
theorem logAccess_iff_valid_witness :
    logAccess sampleRevoked 10 0 2 = .error .ConsentNotActive :=
  ((logAccess_iff_valid sampleRevoked 10 0 2).2.2.2
    { sampleActive with status := Status.Revoked, revokedAt := some 5 }
    rfl rfl).1

/-- Appending a record that satisfies a predicate makes it the first hit of a
reverse scan. -/
theorem find?_reverse_append_pos (l : List ConsentRecord)
    (p : ConsentRecord → Bool) (nr : ConsentRecord) (h : p nr = true) :
    (l ++ [nr]).reverse.find? p = some nr := by
  rw [List.reverse_append]
  simp only [List.reverse_cons, List.reverse_nil, List.nil_append,
    List.cons_append, List.nil_append]
  exact List.find?_cons_of_pos _ h

/-- Looking up an appended record by its own id succeeds when no earlier
record has that id. -/
theorem find?_append_last (l : List ConsentRecord) (nr : ConsentRecord)
    (cid : Nat) (hnone : l.find? (fun r => r.id == cid) = none)
    (h : nr.id = cid) :
    (l ++ [nr]).find? (fun r => r.id == cid) = some nr := by
  rw [List.find?_append, hnone]
  simp [h]

/-- C1: a successful grant is immediately visible — `isValid` on the same
tuple with no intervening mutation returns `true` with the new record's id,
and that record is stored with status `Active`. -/
theorem grant_then_isValid (dir : IdentityDirectory) (st : Ledger)
    (now g ge d e : Nat) (p : String) (cid : Nat) (st' : Ledger)
    (hwf : WF st)
    (hgrant : grant dir st now g ge d e p = .ok (cid, st')) :
    isValid st' now g ge d = (true, some cid) ∧
    ∃ r, findRecord st' cid = some r ∧ r.status = Status.Active := by
  obtain ⟨_, _, _, hlt, hcid, hst⟩ := grant_ok_inv hgrant
  subst hst
  subst hcid
  constructor
  · unfold isValid
    rw [find?_reverse_append_pos _ _ _
      (by simp [matchesTuple, recordValid, hlt])]
  · have hnone : st.records.find? (fun r => r.id == st.nextId) = none := by
      rw [List.find?_eq_none]
      intro r hr
      simp [Nat.ne_of_lt (hwf.2 r hr)]
    exact ⟨_, find?_append_last _ _ _ hnone rfl, rfl⟩

/-- Witness for C1: Scenario A — granting on the empty ledger at time 0
yields id 0, and `isValid` right after returns `(true, some 0)`. -/
theorem grant_then_isValid_witness :
    isValid sampleLedger 0 1 2 3 = (true, some 0) :=
  (grant_then_isValid dirAll Ledger.init 0 1 2 3 300 "diagnosis" 0
    sampleLedger ⟨by simp [Ledger.init], by intro r hr; simp [Ledger.init] at hr⟩
    rfl).1

/-- C4: an `Active` record past its `expiresAt` is no longer returned by
`isValid` (pure time-based expiry, no revoke required), the validity check
mutates nothing, and no operation other than an explicit revoke of that id
ever changes the stored record — expiry sets neither `status = Revoked` nor
`revokedAt`. -/
theorem expired_record_invalid_but_active (st : Ledger) (now cid : Nat)
    (r : ConsentRecord) (hwf : WF st) (hfind : findRecord st cid = some r)
    (hact : r.status = Status.Active) (hexp : r.expiresAt ≤ now) :
    (isValid st now r.grantor r.grantee r.dataAssetId).2 ≠ some cid ∧
    (isValidCall st now r.grantor r.grantee r.dataAssetId).2 = st ∧
    (∀ op : Op, (∀ t c, op ≠ Op.revoke t cid c) →
      findRecord (applyOp st op) cid = some r ∧
      (findRecord (applyOp st op) cid).map (fun q => q.status) =
        some Status.Active ∧
      (findRecord (applyOp st op) cid).map (fun q => q.revokedAt) =
        some r.revokedAt) := by
  refine ⟨?_, rfl, ?_⟩
  · intro hsome
    obtain ⟨rv, hmem, hid, hmatch, hvalid⟩ := isValid_eq_some hsome
    have heq : rv = r :=
      WF_unique hwf hmem (findRecord_mem hfind).1
        (hid.trans (findRecord_mem hfind).2.symm)
    subst heq
    unfold recordValid at hvalid
    simp only [hact, beq_self_eq_true, Bool.true_and, decide_eq_true_eq]
      at hvalid
    exact absurd hvalid (Nat.not_lt.mpr hexp)
  · intro op hop
    have hkeep := findRecord_applyOp_ne_revoke hfind op hop
    rw [hkeep]
    exact ⟨rfl, by simp [hact], rfl⟩

/-- Witness for C4: the Scenario A record (expiresAt = 300) checked at time
300 is no longer returned by `isValid` even though no revoke happened. -/
theorem expired_record_invalid_but_active_witness :
    (isValid sampleLedger 300 sampleActive.grantor sampleActive.grantee
      sampleActive.dataAssetId).2 ≠ some 0 :=
  (expired_record_invalid_but_active sampleLedger 300 0 sampleActive
    ⟨by simp [sampleLedger],
     by intro r hr; simp [sampleLedger] at hr; simp [hr, sampleActive, sampleLedger]⟩
    rfl rfl (by decide)).1

end HealthChain

namespace HealthChain

/-- C2: once revoke succeeds, the record stays `Revoked` under every further
sequence of operations, `isValid` never again returns its id, and a second
revoke on the same id by the grantor fails with `AlreadyRevoked` in every
future state. -/
theorem revoke_finality (st : Ledger) (now cid caller : Nat) (st' : Ledger)
    (hwf : WF st) (hrev : revoke st now cid caller = .ok st') :
    (∀ ops : List Op, ∃ r, findRecord (applyOps st' ops) cid = some r ∧
      r.status = Status.Revoked ∧ r.revokedAt = some now) ∧
    (∀ ops : List Op, ∀ t g ge d,
      (isValid (applyOps st' ops) t g ge d).2 ≠ some cid) ∧
    (∀ ops : List Op, ∀ t,
      revoke (applyOps st' ops) t cid caller = .error .AlreadyRevoked) := by
  obtain ⟨r0, hf0, hcall, hact, hst⟩ := revoke_ok_inv hrev
  have hid0 : r0.id = cid := (findRecord_mem hf0).2
  have hfind' : findRecord st' cid =
      some { r0 with status := Status.Revoked, revokedAt := some now } := by
    rw [findRecord_revoke_ok hrev cid, hf0]
    simp [hid0]
  have hwf' : WF st' := WF_revoke_ok hwf hrev
  have hkeep : ∀ ops : List Op, findRecord (applyOps st' ops) cid =
      some { r0 with status := Status.Revoked, revokedAt := some now } :=
    fun ops => revoked_preserved_applyOps hfind' rfl ops
  refine ⟨fun ops => ⟨_, hkeep ops, rfl, rfl⟩, ?_, ?_⟩
  · intro ops t g ge d hsome
    obtain ⟨rv, hmem, hidv, _, hvalid⟩ := isValid_eq_some hsome
    have hwfF : WF (applyOps st' ops) := WF_applyOps hwf' ops
    have heq : rv = { r0 with status := Status.Revoked, revokedAt := some now } :=
      WF_unique hwfF hmem (findRecord_mem (hkeep ops)).1
        (by rw [hidv, (findRecord_mem (hkeep ops)).2])
    rw [heq] at hvalid
    simp [recordValid] at hvalid
  · intro ops t
    unfold revoke
    rw [hkeep ops]
    dsimp only
    rw [if_neg (by simp [hcall]), if_pos rfl]

/-- Witness for C2: revoking the Scenario A record at time 5 succeeds, and a
second revoke by the same grantor at time 6 fails with `AlreadyRevoked`. -/
theorem revoke_finality_witness :
    revoke sampleRevoked 6 0 1 = .error .AlreadyRevoked :=
  (revoke_finality sampleLedger 5 0 1 sampleRevoked
    ⟨by simp [sampleLedger],
     by intro r hr; simp [sampleLedger] at hr; simp [hr, sampleActive, sampleLedger]⟩
    rfl).2.2 [] 6

end HealthChain

namespace HealthChain

/-- In a state holding two appended records, a reverse scan returns the later
one when it satisfies the predicate. -/
theorem isValid_two_appended (st : Ledger) (t g ge d : Nat)
    (r1 r2 : ConsentRecord) (nid : Nat)
    (hp2 : (matchesTuple g ge d r2 && recordValid t r2) = true) :
    isValid { st with records := (st.records ++ [r1]) ++ [r2], nextId := nid }
      t g ge d = (true, some r2.id) := by
  unfold isValid
  dsimp only
  rw [find?_reverse_append_pos _ _ _ hp2]

/-- In a state holding two appended records, a reverse scan skips an invalid
later record and returns the earlier valid one. -/
theorem isValid_skip_last (st : Ledger) (t g ge d : Nat)
    (r1 r2 : ConsentRecord) (nid : Nat)
    (hp2 : (matchesTuple g ge d r2 && recordValid t r2) = false)
    (hp1 : (matchesTuple g ge d r1 && recordValid t r1) = true) :
    isValid { st with records := (st.records ++ [r1]) ++ [r2], nextId := nid }
      t g ge d = (true, some r1.id) := by
  unfold isValid
  dsimp only
  rw [List.reverse_append]
  simp only [List.reverse_cons, List.reverse_nil, List.nil_append,
    List.cons_append]
  rw [List.find?_cons_of_neg _ (by simp [hp2])]
  rw [List.reverse_append]
  simp only [List.reverse_cons, List.reverse_nil, List.nil_append,
    List.cons_append]
  rw [@List.find?_cons_of_pos _ (fun r => matchesTuple g ge d r && recordValid t r)
    r1 st.records.reverse hp1]

/-- Revoking the earlier of two appended records (by its grantor) marks
exactly that record `Revoked` and leaves the later one untouched. -/
theorem revoke_first_of_two (st : Ledger) (nid tr : Nat)
    (r1 r2 : ConsentRecord)
    (hA : ∀ r ∈ st.records, r.id ≠ r1.id)
    (hne : r2.id ≠ r1.id) (hact : r1.status = Status.Active) :
    revoke { st with records := (st.records ++ [r1]) ++ [r2], nextId := nid }
      tr r1.id r1.grantor =
    .ok { st with
      records := (st.records ++
        [{ r1 with status := Status.Revoked, revokedAt := some tr }]) ++ [r2],
      nextId := nid } := by
  have hnone : st.records.find? (fun r => r.id == r1.id) = none := by
    rw [List.find?_eq_none]
    intro r hr
    simp [hA r hr]
  have hfr : findRecord
      { st with records := (st.records ++ [r1]) ++ [r2], nextId := nid }
      r1.id = some r1 := by
    unfold findRecord
    dsimp only
    rw [List.find?_append, find?_append_last _ _ _ hnone rfl]
    rfl
  unfold revoke
  rw [hfr]
  dsimp only
  rw [if_neg (by simp), if_neg (by simp [hact])]
  simp only [List.map_append, List.map_cons, List.map_nil]
  have hfA : st.records.map (fun q => if q.id == r1.id then
      { q with status := Status.Revoked, revokedAt := some tr } else q) =
      st.records.map id :=
    List.map_congr_left (fun q hq => by simp [hA q hq])
  rw [hfA, List.map_id]
  simp [hne]

/-- Revoking the later of two appended records (by its grantor) marks exactly
that record `Revoked` and leaves the earlier one untouched. -/
theorem revoke_second_of_two (st : Ledger) (nid tr : Nat)
    (r1 r2 : ConsentRecord)
    (hA : ∀ r ∈ st.records, r.id ≠ r2.id)
    (hne : r1.id ≠ r2.id) (hact : r2.status = Status.Active) :
    revoke { st with records := (st.records ++ [r1]) ++ [r2], nextId := nid }
      tr r2.id r2.grantor =
    .ok { st with
      records := (st.records ++ [r1]) ++
        [{ r2 with status := Status.Revoked, revokedAt := some tr }],
      nextId := nid } := by
  have hnone : st.records.find? (fun r => r.id == r2.id) = none := by
    rw [List.find?_eq_none]
    intro r hr
    simp [hA r hr]
  have hfr : findRecord
      { st with records := (st.records ++ [r1]) ++ [r2], nextId := nid }
      r2.id = some r2 := by
    unfold findRecord
    dsimp only
    rw [List.find?_append]
    have h3 : (st.records ++ [r1]).find? (fun r => r.id == r2.id) = none := by
      rw [List.find?_append, hnone]
      simp [hne]
    rw [h3]
    simp
  unfold revoke
  rw [hfr]
  dsimp only
  rw [if_neg (by simp), if_neg (by simp [hact])]
  simp only [List.map_append, List.map_cons, List.map_nil]
  have hfA : st.records.map (fun q => if q.id == r2.id then
      { q with status := Status.Revoked, revokedAt := some tr } else q) =
      st.records.map id :=
    List.map_congr_left (fun q hq => by simp [hA q hq])
  rw [hfA, List.map_id]
  simp [hne]

/-- C8: two grants for the same tuple both succeed with distinct ids (no
deduplication); while both are active and unexpired, `isValid` returns the
most recently created one; each is independently revocable, and after
revoking one, `isValid` returns the other. -/
theorem duplicate_grants_independent (dir : IdentityDirectory) (st : Ledger)
    (now1 now2 t : Nat) (g ge d e1 e2 : Nat) (p1 p2 : String)
    (id1 id2 : Nat) (st1 st2 : Ledger)
    (hwf : WF st)
    (h1 : grant dir st now1 g ge d e1 p1 = .ok (id1, st1))
    (h2 : grant dir st1 now2 g ge d e2 p2 = .ok (id2, st2))
    (ht1 : t < e1) (ht2 : t < e2) :
    id1 ≠ id2 ∧
    isValid st2 t g ge d = (true, some id2) ∧
    (∀ tr, ∃ st3, revoke st2 tr id1 g = .ok st3 ∧
      isValid st3 t g ge d = (true, some id2)) ∧
    (∀ tr, ∃ st3, revoke st2 tr id2 g = .ok st3 ∧
      isValid st3 t g ge d = (true, some id1)) := by
  obtain ⟨_, _, _, _, hcid1, hs1⟩ := grant_ok_inv h1
  obtain ⟨_, _, _, _, hcid2, hs2⟩ := grant_ok_inv h2
  subst hs1
  subst hs2
  subst hcid1
  subst hcid2
  dsimp only
  have hA1 : ∀ r ∈ st.records, r.id ≠ st.nextId :=
    fun r hr => Nat.ne_of_lt (hwf.2 r hr)
  have hA2 : ∀ r ∈ st.records, r.id ≠ st.nextId + 1 :=
    fun r hr => Nat.ne_of_lt (Nat.lt_succ_of_lt (hwf.2 r hr))
  refine ⟨Nat.ne_of_lt (Nat.lt_succ_self _), ?_, ?_, ?_⟩
  · exact isValid_two_appended st t g ge d _ _ _
      (by simp [matchesTuple, recordValid, ht2])
  · intro tr
    exact ⟨_, revoke_first_of_two st _ tr _ _ hA1 (Nat.succ_ne_self _) rfl,
      isValid_two_appended st t g ge d _ _ _
        (by simp [matchesTuple, recordValid, ht2])⟩
  · intro tr
    exact ⟨_, revoke_second_of_two st _ tr _ _ hA2
        (Nat.ne_of_lt (Nat.lt_succ_self _)) rfl,
      isValid_skip_last st t g ge d _ _ _
        (by simp [matchesTuple, recordValid])
        (by simp [matchesTuple, recordValid, ht1])⟩

/-- Witness for C8: after two grants for the tuple (1, 2, 3), `isValid` at
time 5 returns the id of the second, more recently created record. -/
theorem duplicate_grants_independent_witness :
    isValid twoGrants 5 1 2 3 = (true, some 1) :=
  (duplicate_grants_independent dirAll Ledger.init 0 0 5 1 2 3 10 10 "a" "b"
    0 1 ⟨[{ id := 0, grantor := 1, grantee := 2, dataAssetId := 3,
            purpose := "a", expiresAt := 10, status := Status.Active,
            createdAt := 0, revokedAt := none }], 1, []⟩ twoGrants
    ⟨by simp [Ledger.init], by intro r hr; simp [Ledger.init] at hr⟩
    rfl rfl (by decide) (by decide)).2.1

end HealthChain
